import Mathlib

/-!
Shallow embedding of `_anvil_designer/generate_class.py` (pyDALAnvilWorks):
the YAML-document-to-class-source generator.  Parsed strictyaml documents
are modelled as a tree of mappings, sequences and scalars; scalars carry
their raw text plus the validator type they were last revalidated against
(`dirty_load` leaves every scalar as raw text).  Python exceptions are
modelled with `Except Err`.
-/

namespace AnvilGen

/-- Scalar validator state: `raw` is a dirty-loaded scalar (behaves as text),
the others record a successful `revalidate` against `Str`, `Bool`,
`NullNone` or `Float` respectively. -/
inductive SType where
  | raw
  | tstr
  | tbool
  | tnull
  | tfloat

/-- A strictyaml document node: scalar text, mapping or sequence. -/
inductive Node where
  | scalar (text : String) (ty : SType)
  | mapping (entries : List (String × Node))
  | sequence (items : List Node)

/-- Python values produced by strictyaml's `.data` on a validated node.
A float keeps the source text it was parsed from. -/
inductive PValue where
  | pstr (s : String)
  | pbool (b : Bool)
  | pnone
  | pfloat (text : String)
  | pdict (entries : List (String × PValue))
  | plist (items : List PValue)

/-- Python exceptions raised by the generator or by strictyaml. -/
inductive Err where
  | missingType (componentName : String)
  | keyError (key : String)
  | typeError (msg : String)
  | validationError (msg : String)

/-- First-match association lookup in a mapping's entry list (strictyaml
mapping keys are unique, so first match is the match). -/
def lookupEs : List (String × Node) → String → Option Node
  | [], _ => none
  | (k, n) :: rest, key => if k = key then some n else lookupEs rest key

/-- Item assignment `value[key] = n` on a mapping: replace in place if the
key exists, append otherwise (dict-like semantics). -/
def setKeyEs : List (String × Node) → String → Node → List (String × Node)
  | [], key, n => [(key, n)]
  | (k, m) :: rest, key, n =>
    if k = key then (key, n) :: rest else (k, m) :: setKeyEs rest key n

/-- A single quote character as a string (used by the f-string quoting in
`dict2string`). -/
def squote : String := "\x27"

/-- Python `str.title()` for the character classes that occur in component
names: the first letter of each run of letters is uppercased, subsequent
letters are lowercased, non-letters pass through and restart a run. -/
def pyTitleGo : Bool → List Char → List Char
  | _, [] => []
  | prevAlpha, c :: cs =>
    (if c.isAlpha then (if prevAlpha then c.toLower else c.toUpper) else c)
      :: pyTitleGo c.isAlpha cs

def pyTitle (s : String) : String := ⟨pyTitleGo false s.toList⟩

/-- Python `str.split` on a single separator character: split at every
occurrence, keeping empty segments (so `"a__b"` gives three parts and
`""` gives one empty part). -/
def splitUnderscore : List Char → List (List Char)
  | [] => [[]]
  | c :: cs =>
    let r := splitUnderscore cs
    if c = '_' then [] :: r
    else
      match r with
      | [] => [[c]]
      | seg :: rest => (c :: seg) :: rest

/-- Source `to_camel_case`: split on underscores, `title()` each part and
concatenate. -/
def to_camel_case (snake_str : String) : String :=
  String.join ((splitUnderscore snake_str.toList).map (fun seg => pyTitle (String.mk seg)))

/-- CPython `repr` escaping of one character inside a single-quoted string
literal (the escapes that can occur here). -/
def escapePyChar (c : Char) : String :=
  if c = '\\' then "\\\\"
  else if c = '\x27' then "\\\x27"
  else if c = '\n' then "\\n"
  else if c = '\r' then "\\r"
  else if c = '\t' then "\\t"
  else String.singleton c

def escapePy (s : String) : String := String.join (s.toList.map escapePyChar)

/-- CPython `str(float(t))` for a text of digits and at most one dot (the
only floats the generator creates): strip leading zeros of the integer
part and trailing zeros of the fraction, always keeping at least `d.d`.
This models the shortest round-trip repr on the decimal inputs reachable
here. -/
def floatRepr (t : String) : String :=
  let ipart := (t.toList.takeWhile (fun c => c ≠ '.'))
  let rest := (t.toList.dropWhile (fun c => c ≠ '.'))
  let frac := match rest with
    | [] => []
    | _ :: tl => tl
  let i2 := match ipart.dropWhile (fun c => c = '0') with
    | [] => "0"
    | l => String.mk l
  let f2 := String.mk ((frac.reverse.dropWhile (fun c => c = '0')).reverse)
  if f2 = "" then i2 ++ ".0" else i2 ++ "." ++ f2

mutual
/-- CPython `repr` of a Python value (as produced by `.data`). -/
def pyRepr : PValue → String
  | .pstr s => squote ++ escapePy s ++ squote
  | .pbool b => if b then "True" else "False"
  | .pnone => "None"
  | .pfloat t => floatRepr t
  | .pdict es => "\x7b" ++ pyReprEntries es ++ "\x7d"
  | .plist xs => "[" ++ pyReprItems xs ++ "]"

def pyReprEntries : List (String × PValue) → String
  | [] => ""
  | (k, v) :: rest =>
    (squote ++ escapePy k ++ squote) ++ ": " ++ pyRepr v ++
      (match rest with
       | [] => ""
       | _ :: _ => ", " ++ pyReprEntries rest)

def pyReprItems : List PValue → String
  | [] => ""
  | v :: rest =>
    pyRepr v ++
      (match rest with
       | [] => ""
       | _ :: _ => ", " ++ pyReprItems rest)
end

/-- CPython `str()` of a Python value: identity on strings, `repr`
otherwise (bool, None, float, dict, list all print as their repr). -/
def pyStr : PValue → String
  | .pstr s => s
  | .pbool b => pyRepr (.pbool b)
  | .pnone => pyRepr .pnone
  | .pfloat t => pyRepr (.pfloat t)
  | .pdict es => pyRepr (.pdict es)
  | .plist xs => pyRepr (.plist xs)

/-- Character-set guard of the numeric branch of `validate_text`:
`set(value.text) <= set('0123456789.')`. -/
def charsetDigitsDot (t : String) : Bool :=
  t.toList.all (fun c => c.isDigit || c = '.')

/-- CPython `float()` acceptance, restricted to texts over the digits-plus-dot
alphabet (the only texts the generator feeds it): accepted iff there is at
most one dot and at least one digit. -/
def pyFloatAccepts (t : String) : Bool :=
  decide (t.toList.count '.' ≤ 1) && t.toList.any (fun c => c.isDigit)

/-- Source `validate_text`: retype a scalar by its raw text.  `revalidate`
runs the schema on the chunk and raises a `YAMLValidationError` when it
does not fit, which for `sy.Float()` happens exactly when `float()` rejects
the text.  `.text` on a non-scalar raises. -/
def validate_text (value : Node) : Except Err Node :=
  match value with
  | .scalar t _ =>
    if t = "true" || t = "false" then .ok (.scalar t .tbool)
    else if t = "null" then .ok (.scalar t .tnull)
    else if t = "" then .ok (.scalar t .tstr)
    else if charsetDigitsDot t then
      if pyFloatAccepts t then .ok (.scalar t .tfloat)
      else .error (.validationError "when expecting a float")
    else .ok value
  | _ => .error (.typeError "text is only available for scalar nodes")

mutual
/-- Effect of `validate_yaml(value, key)` on the child `value[key]`.
The Python function dispatches on the child: a non-empty mapping or
sequence is recursed into key by key (each recursive call only rewrites
the subtree under its own key, so sequentially threading the in-place
mutation equals validating every child independently); a scalar goes to
`validate_text`.  For an EMPTY mapping or sequence the source calls
`value.revalidate(sy.EmptyDict())` (resp. `sy.EmptyList()`) on the
ENCLOSING node `value`, not on the child: the enclosing node contains
`key`, hence is never an empty mapping, so that revalidation always
raises a `YAMLValidationError`. -/
def validate_child : Node → Except Err Node
  | .scalar t ty => validate_text (.scalar t ty)
  | .mapping [] => .error (.validationError "when expecting an empty mapping")
  | .mapping (e :: rest) =>
    match validate_entries (e :: rest) with
    | .ok es2 => .ok (.mapping es2)
    | .error err => .error err
  | .sequence [] => .error (.validationError "when expecting an empty list")
  | .sequence (x :: rest) =>
    match validate_items (x :: rest) with
    | .ok xs2 => .ok (.sequence xs2)
    | .error err => .error err

def validate_entries : List (String × Node) → Except Err (List (String × Node))
  | [] => .ok []
  | (k, n) :: rest =>
    match validate_child n with
    | .error err => .error err
    | .ok n2 =>
      match validate_entries rest with
      | .error err => .error err
      | .ok rest2 => .ok ((k, n2) :: rest2)

def validate_items : List Node → Except Err (List Node)
  | [] => .ok []
  | n :: rest =>
    match validate_child n with
    | .error err => .error err
    | .ok n2 =>
      match validate_items rest with
      | .error err => .error err
      | .ok rest2 => .ok (n2 :: rest2)
end

/-- Subscript key: strictyaml indexes mappings by string and sequences by
integer (`sequence_key: Union[str, int]`). -/
inductive YKey where
  | str (s : String)
  | idx (i : Nat)

/-- Subscript `value[key]`, raising `KeyError` on a missing mapping key and
`TypeError` on a shape mismatch. -/
def getKey (value : Node) (key : YKey) : Except Err Node :=
  match value, key with
  | .mapping es, .str s =>
    match lookupEs es s with
    | some n => .ok n
    | none => .error (.keyError s)
  | .sequence xs, .idx i =>
    match xs.get? i with
    | some n => .ok n
    | none => .error (.keyError (toString i))
  | _, _ => .error (.typeError "subscript shape mismatch")

/-- In-place update `value[key] = child` (only used where the key exists). -/
def setKeyNode (value : Node) (key : YKey) (child : Node) : Node :=
  match value, key with
  | .mapping es, .str s => .mapping (setKeyEs es s child)
  | .sequence xs, .idx i => .sequence (xs.set i child)
  | v, _ => v

/-- Source `validate_yaml(value, sequence_key)`: validates the subtree at
`value[sequence_key]` in place (see `validate_child` for the dispatch). -/
def validate_yaml (value : Node) (sequence_key : YKey) : Except Err Node :=
  match getKey value sequence_key with
  | .error err => .error err
  | .ok child =>
    match validate_child child with
    | .error err => .error err
    | .ok child2 => .ok (setKeyNode value sequence_key child2)

mutual
/-- strictyaml `.data`: the Python value of a validated node.  A raw
(dirty-loaded) scalar and a `Str`-validated scalar both give their text;
`Bool` gives `True` for the text "true"; `NullNone` gives `None`;
`Float` gives `float(text)`. -/
def dataOf : Node → PValue
  | .scalar t ty =>
    match ty with
    | .raw => .pstr t
    | .tstr => .pstr t
    | .tbool => .pbool (t = "true")
    | .tnull => .pnone
    | .tfloat => .pfloat t
  | .mapping es => .pdict (dataEntries es)
  | .sequence xs => .plist (dataItems xs)

def dataEntries : List (String × Node) → List (String × PValue)
  | [] => []
  | (k, n) :: rest => (k, dataOf n) :: dataEntries rest

def dataItems : List Node → List PValue
  | [] => []
  | n :: rest => dataOf n :: dataItems rest
end

/-- Python `len()` on a strictyaml node: number of entries of a mapping,
number of items of a sequence, text length of a (raw) scalar. -/
def pyLen : Node → Nat
  | .scalar t _ => t.length
  | .mapping es => es.length
  | .sequence xs => xs.length

/-- Python `dict.update` with a single key: replace in place when present,
append otherwise. -/
def updateAssocP : List (String × PValue) → String → PValue → List (String × PValue)
  | [], key, v => [(key, v)]
  | (k, w) :: rest, key, v =>
    if k = key then (key, v) :: rest else (k, w) :: updateAssocP rest key v

/-- Source `add_properties(value, parent)`: start from an empty `attrs`
dict; if `value.get('properties', [])` has length 0 return it unchanged;
otherwise validate the `properties` subtree in place, copy its `.data`
into `attrs` and add the synthetic `parent` entry. -/
def add_properties (value : Node) (parent : String) : Except Err (List (String × PValue)) :=
  match value with
  | .mapping es =>
    match lookupEs es "properties" with
    | none => .ok []
    | some props =>
      if pyLen props = 0 then .ok []
      else
        match validate_yaml value (.str "properties") with
        | .error err => .error err
        | .ok value2 =>
          match getKey value2 (.str "properties") with
          | .error err => .error err
          | .ok props2 =>
            match dataOf props2 with
            | .pdict entries => .ok (updateAssocP entries "parent" (.pstr "Container()"))
            | _ => .error (.typeError "dict.update requires key-value pairs")
  | _ => .error (.typeError "get is only available for mapping nodes")

/-- One iteration of the `dict2string` loop: render `    $key = $value,\n`,
quoting the value iff it is a string and the key is not the reserved
`parent`. -/
def entryString (key : String) (value : PValue) : String :=
  let vstr :=
    match value with
    | .pstr s => if key ≠ "parent" then squote ++ s ++ squote else s
    | v => pyStr v
  "    " ++ key ++ " = " ++ vstr ++ ",\n"

/-- Source `dict2string(dict_name, of_dict)` (the `dict_name` parameter is
unused in the source body too). -/
def dict2string (dict_name : String) (of_dict : List (String × PValue)) : String :=
  of_dict.foldl (fun acc kv => acc ++ entryString kv.1 kv.2) ""

/-- Source `CatalogCard` dataclass. -/
structure CatalogCard where
  name : String
  of_type : String
  parent : String
  as_string : String

/-- Python `.text` on a node. -/
def textOf (n : Node) : Except Err String :=
  match n with
  | .scalar t _ => .ok t
  | _ => .error (.typeError "text is only available for scalar nodes")

/-- Source `lowest_level_component(value, parent)`: requires `name` and
`type`; a missing `type` raises (the spec's `MissingTypeError`). -/
def lowest_level_component (value : Node) (parent : String) : Except Err CatalogCard :=
  match value with
  | .mapping es =>
    match (match lookupEs es "name" with
           | some n => textOf n
           | none => .error (.keyError "name") : Except Err String) with
    | .error err => .error err
    | .ok rawName =>
      match (match lookupEs es "type" with
             | some n => textOf n
             | none => .error (.missingType rawName) : Except Err String) with
      | .error err => .error err
      | .ok of_type =>
        match add_properties value parent with
        | .error err => .error err
        | .ok attrs =>
          .ok { name := to_camel_case rawName
                of_type := of_type
                parent := parent
                as_string := dict2string rawName attrs }
  | _ => .error (.typeError "subscript is only available for container nodes")

mutual
/-- Size of a node, used as the termination measure of the catalog walk. -/
def nsize : Node → Nat
  | .scalar _ _ => 1
  | .mapping es => 1 + esize es
  | .sequence xs => 1 + lsize xs

def esize : List (String × Node) → Nat
  | [] => 0
  | (_, n) :: rest => 1 + nsize n + esize rest

def lsize : List Node → Nat
  | [] => 0
  | n :: rest => 1 + nsize n + lsize rest
end

theorem lookupEs_nsize (es : List (String × Node)) (key : String) (n : Node)
    (h : lookupEs es key = some n) : nsize n < nsize (.mapping es) := by
  induction es with
  | nil => simp [lookupEs] at h
  | cons e rest ih =>
    obtain ⟨k, m⟩ := e
    by_cases hk : k = key
    · simp [lookupEs, hk] at h
      subst h
      simp [nsize, esize]
      omega
    · simp [lookupEs, hk] at h
      have := ih h
      simp [nsize, esize] at this ⊢
      omega

/-- The catalog: an insertion-ordered mapping from raw component name to
its `CatalogCard` (Python `OrderedDict`). -/
abbrev Catalog := List (String × CatalogCard)

/-- `OrderedDict` assignment `catalog[key] = card`: an existing key keeps
its position and gets the new value, a new key is appended at the end. -/
def odInsert (catalog : Catalog) (key : String) (card : CatalogCard) : Catalog :=
  if catalog.any (fun p => p.1 = key) then
    catalog.map (fun p => if p.1 = key then (key, card) else p)
  else catalog ++ [(key, card)]

def lookupCat : Catalog → String → Option CatalogCard
  | [], _ => none
  | (k, c) :: rest, key => if k = key then some c else lookupCat rest key

/-- The `try: name = value['name'].text / except KeyError:` prologue of
`derive_dict`: a present `name` gives its text (non-scalar raises,
uncaught), an absent `name` means this is the top-level form node. -/
def nameAndTop (es : List (String × Node)) (parent : String) : Except Err (String × Bool) :=
  match lookupEs es "name" with
  | some n =>
    match textOf n with
    | .ok t => .ok (t, false)
    | .error err => .error err
  | none => .ok (parent, true)

mutual
/-- Source `derive_dict(value, catalog, parent)`: resolve the node's name
(or mark it top-level), first recurse into every `components` child in
source order with this node as the new parent, then for the top-level
node substitute its `container` mapping with `name` force-set to
`"container"`, and finally insert this node's own `CatalogCard` — so every
descendant entry is inserted before the node's own entry. -/
def derive_dict (value : Node) (catalog : Catalog) (parent : String) : Except Err Catalog :=
  match value with
  | .mapping es =>
    match nameAndTop es parent with
    | .error err => .error err
    | .ok (name, top_level) =>
      let parent2 := if (lookupEs es "components").isSome then name else parent
      match (match h : lookupEs es "components" with
             | some (.sequence xs) => derive_list xs catalog name
             | some (.mapping []) => .ok catalog
             | some _ => .error (.typeError "component nodes are not iterable here")
             | none => .ok catalog : Except Err Catalog) with
      | .error err => .error err
      | .ok catalog2 =>
        match (if top_level then
                 match lookupEs es "container" with
                 | some (.mapping ces) =>
                   .ok (.mapping (setKeyEs ces "name" (.scalar "container" .tstr)))
                 | some _ => .error (.typeError "item assignment needs a mapping node")
                 | none => .error (.typeError "NoneType does not support item assignment")
               else .ok (.mapping es) : Except Err Node) with
        | .error err => .error err
        | .ok value2 =>
          match lowest_level_component value2 parent2 with
          | .error err => .error err
          | .ok card => .ok (odInsert catalog2 name card)
  | _ => .error (.typeError "subscript is only available for container nodes")
termination_by nsize value
decreasing_by
  have hlt := lookupEs_nsize es "components" _ h
  simp only [nsize] at hlt ⊢
  omega

/-- The `for component in value['components']` loop of `derive_dict`,
threading the shared catalog accumulator left to right. -/
def derive_list (components : List Node) (catalog : Catalog) (parent : String) : Except Err Catalog :=
  match components with
  | [] => .ok catalog
  | c :: rest =>
    match derive_dict c catalog parent with
    | .error err => .error err
    | .ok catalog2 => derive_list rest catalog2 parent
termination_by lsize components
decreasing_by
  all_goals simp only [lsize, nsize]; omega
end

mutual
/-- Modelled from the spec: the catalog insertion events of a subtree as a
flat list, each subtree contributing its descendants' events first
(siblings left to right) and its own `(name, card)` event last.  This is
what post-order insertion means; `derive_dict` is proved to refine it. -/
def postorder_events (value : Node) (parent : String) :
    Except Err (List (String × CatalogCard)) :=
  match value with
  | .mapping es =>
    match nameAndTop es parent with
    | .error err => .error err
    | .ok (name, top_level) =>
      let parent2 := if (lookupEs es "components").isSome then name else parent
      match (match h : lookupEs es "components" with
             | some (.sequence xs) => postorder_list xs name
             | some (.mapping []) => .ok []
             | some _ => .error (.typeError "component nodes are not iterable here")
             | none => .ok [] : Except Err (List (String × CatalogCard))) with
      | .error err => .error err
      | .ok kidEvents =>
        match (if top_level then
                 match lookupEs es "container" with
                 | some (.mapping ces) =>
                   .ok (.mapping (setKeyEs ces "name" (.scalar "container" .tstr)))
                 | some _ => .error (.typeError "item assignment needs a mapping node")
                 | none => .error (.typeError "NoneType does not support item assignment")
               else .ok (.mapping es) : Except Err Node) with
        | .error err => .error err
        | .ok value2 =>
          match lowest_level_component value2 parent2 with
          | .error err => .error err
          | .ok card => .ok (kidEvents ++ [(name, card)])
  | _ => .error (.typeError "subscript is only available for container nodes")
termination_by nsize value
decreasing_by
  have hlt := lookupEs_nsize es "components" _ h
  simp only [nsize] at hlt ⊢
  omega

def postorder_list (components : List Node) (parent : String) :
    Except Err (List (String × CatalogCard)) :=
  match components with
  | [] => .ok []
  | c :: rest =>
    match postorder_events c parent with
    | .error err => .error err
    | .ok evs =>
      match postorder_list rest parent with
      | .error err => .error err
      | .ok evs2 => .ok (evs ++ evs2)
termination_by lsize components
decreasing_by
  all_goals simp only [lsize, nsize]; omega
end

/-- Replay a list of insertion events against a catalog. -/
def odFold (catalog : Catalog) (events : List (String × CatalogCard)) : Catalog :=
  events.foldl (fun c kv => odInsert c kv.1 kv.2) catalog

/-- Source `yaml2definition(parsed, form_name)`: build the catalog, emit one
default-dict block and one class-attribute line per non-form entry in
catalog order, and wrap them in the class declaration and fixed tail. -/
def headerString : String := "from _anvil_designer.componentsUI.anvil import *\n\n"

def itemBlock : String :=
  "\n    # not sure why, but item is not in the official api docs so must add here\n    item = dict()\n\n"

def initBlock : String :=
  "    def init_components(self, **kwargs):\n        super().__init__()        \n        pass\n"

def classTail : String := itemBlock ++ initBlock

def yaml2definition (parsed : Node) (form_name : String) : Except Err String :=
  match derive_dict parsed [] form_name with
  | .error err => .error err
  | .ok catalog =>
    let strs := catalog.foldl
      (fun (acc : String × String) kv =>
        if kv.1 = form_name then acc
        else (acc.1 ++ kv.2.name ++ " = dict(\n" ++ kv.2.as_string ++ ")\n",
              acc.2 ++ "    " ++ kv.1 ++ " = " ++ kv.2.of_type ++ "(**" ++ kv.2.name ++ ")\n"))
      ("", "")
    match lookupCat catalog form_name with
    | none => .error (.keyError form_name)
    | some rootCard =>
      .ok (headerString ++ strs.1
        ++ "class " ++ form_name ++ "Template(" ++ rootCard.of_type ++ "):\n"
        ++ strs.2 ++ classTail)

/-- Every node has positive size. -/
theorem nsize_pos (v : Node) : 1 ≤ nsize v := by
  cases v <;> simp [nsize]

/-- Helper for the post-order claim: `derive_dict` refines the flat
post-order event list, size-bounded strong induction over the mutual
recursion. -/
theorem derive_refines (fuelN : Nat) :
    (∀ v, nsize v ≤ fuelN → ∀ cat par, derive_dict v cat par = (postorder_events v par).map (odFold cat)) ∧
    (∀ xs, lsize xs ≤ fuelN → ∀ cat par, derive_list xs cat par = (postorder_list xs par).map (odFold cat)) := by
  induction fuelN with
  | zero =>
    constructor
    · intro v hv
      have := nsize_pos v
      omega
    · intro xs hx cat par
      cases xs with
      | nil => simp [derive_list, postorder_list, odFold, Except.map]
      | cons c rest => simp only [lsize] at hx; have := nsize_pos c; omega
  | succ n ih =>
    constructor
    · intro v hv cat par
      cases v with
      | scalar t ty => simp [derive_dict, postorder_events, Except.map]
      | sequence xs => simp [derive_dict, postorder_events, Except.map]
      | mapping es =>
        simp only [derive_dict, postorder_events]
        cases hnt : nameAndTop es par with
        | error err => simp [hnt, Except.map]
        | ok nt =>
          obtain ⟨name, top⟩ := nt
          simp only [hnt]
          cases hc : lookupEs es "components" with
          | none =>
            simp only [hc, Option.isSome_none, Bool.false_eq_true, if_false]
            cases top with
            | false =>
              cases hll : lowest_level_component (.mapping es) par with
              | error err => simp [hll, Except.map]
              | ok card => simp [hll, Except.map, odFold, odInsert]
            | true =>
              cases hcont : lookupEs es "container" with
              | none => simp [hcont, Except.map]
              | some c =>
                cases c with
                | scalar t ty => simp [hcont, Except.map]
                | sequence ys => simp [hcont, Except.map]
                | mapping ces =>
                  cases hll : lowest_level_component (.mapping (setKeyEs ces "name" (.scalar "container" .tstr))) par with
                  | error err => simp [hcont, hll, Except.map]
                  | ok card => simp [hcont, hll, Except.map, odFold, odInsert]
          | some comps =>
            cases comps with
            | scalar t ty => simp [hc, Except.map]
            | mapping ces =>
              cases ces with
              | cons e rest => simp [hc, Except.map]
              | nil =>
                simp only [hc, Option.isSome_some, if_true]
                cases top with
                | false =>
                  cases hll : lowest_level_component (.mapping es) name with
                  | error err => simp [hll, Except.map]
                  | ok card => simp [hll, Except.map, odFold, odInsert]
                | true =>
                  cases hcont : lookupEs es "container" with
                  | none => simp [hcont, Except.map]
                  | some c =>
                    cases c with
                    | scalar t ty => simp [hcont, Except.map]
                    | sequence ys => simp [hcont, Except.map]
                    | mapping ces2 =>
                      cases hll : lowest_level_component (.mapping (setKeyEs ces2 "name" (.scalar "container" .tstr))) name with
                      | error err => simp [hcont, hll, Except.map]
                      | ok card => simp [hcont, hll, Except.map, odFold, odInsert]
            | sequence xs =>
              have hxs : lsize xs ≤ n := by
                have := lookupEs_nsize es "components" _ hc
                simp only [nsize] at this hv
                omega
              simp only [hc, Option.isSome_some, if_true]
              rw [ih.2 xs hxs]
              cases hpl : postorder_list xs name with
              | error err => simp [hpl, Except.map]
              | ok evs =>
                simp only [hpl, Except.map]
                cases top with
                | false =>
                  cases hll : lowest_level_component (.mapping es) name with
                  | error err => simp [hll, Except.map]
                  | ok card => simp [hll, Except.map, odFold, odInsert, List.foldl_append]
                | true =>
                  cases hcont : lookupEs es "container" with
                  | none => simp [hcont, Except.map]
                  | some c =>
                    cases c with
                    | scalar t ty => simp [hcont, Except.map]
                    | sequence ys => simp [hcont, Except.map]
                    | mapping ces =>
                      cases hll : lowest_level_component (.mapping (setKeyEs ces "name" (.scalar "container" .tstr))) name with
                      | error err => simp [hcont, hll, Except.map]
                      | ok card => simp [hcont, hll, Except.map, odFold, odInsert, List.foldl_append]
    · intro xs hx cat par
      cases xs with
      | nil => simp [derive_list, postorder_list, odFold, Except.map]
      | cons c rest =>
        simp only [derive_list, postorder_list]
        rw [ih.1 c (by simp only [lsize] at hx; omega)]
        cases hpe : postorder_events c par with
        | error err => simp [hpe, Except.map]
        | ok evs =>
          simp only [hpe, Except.map]
          rw [ih.2 rest (by simp only [lsize] at hx; omega)]
          cases hpl : postorder_list rest par with
          | error err => simp [hpl, Except.map]
          | ok evs2 => simp [hpl, Except.map, odFold, List.foldl_append]

/-- A node that can yield a catalog entry has a `type` key. -/
def hasTypeKey : Node → Bool
  | .mapping es => (lookupEs es "type").isSome
  | _ => false

mutual
/-- The component nodes from which `derive_dict` builds catalog entries:
every named mapping contributes itself, a nameless (top-level) mapping
contributes its `container` child with `name` force-set, and a
`components` sequence contributes its members recursively. -/
def entryNodes : Node → List Node
  | .mapping es =>
    (match h : lookupEs es "components" with
     | some (.sequence xs) => entryNodesList xs
     | _ => []) ++
    (match lookupEs es "name" with
     | some _ => [Node.mapping es]
     | none =>
       match lookupEs es "container" with
       | some (.mapping ces) => [Node.mapping (setKeyEs ces "name" (.scalar "container" .tstr))]
       | _ => [])
  | _ => []
termination_by v => nsize v
decreasing_by
  have hlt := lookupEs_nsize es "components" _ h
  simp only [nsize] at hlt ⊢
  omega

def entryNodesList : List Node → List Node
  | [] => []
  | c :: rest => entryNodes c ++ entryNodesList rest
termination_by xs => lsize xs
decreasing_by
  all_goals simp only [lsize, nsize]; omega
end

/-- A successfully built card implies a present `type` key. -/
theorem lowest_ok_hasType (v : Node) (p : String) (card : CatalogCard)
    (h : lowest_level_component v p = .ok card) : hasTypeKey v = true := by
  cases v with
  | scalar t ty => simp [lowest_level_component] at h
  | sequence xs => simp [lowest_level_component] at h
  | mapping es =>
    simp only [lowest_level_component] at h
    cases hn : lookupEs es "name" with
    | none => simp [hn] at h
    | some nd =>
      cases ht : lookupEs es "type" with
      | some td => simp [hasTypeKey, ht]
      | none =>
        simp only [hn, ht] at h
        cases htx : textOf nd <;> simp [htx] at h

/-- Helper for the missing-type claim: a successful catalog build implies
every entry-yielding node carries a `type` key. -/
theorem derive_ok_typed (fuelN : Nat) :
    (∀ v, nsize v ≤ fuelN → ∀ cat par c, derive_dict v cat par = .ok c →
       ∀ n ∈ entryNodes v, hasTypeKey n = true) ∧
    (∀ xs, lsize xs ≤ fuelN → ∀ cat par c, derive_list xs cat par = .ok c →
       ∀ n ∈ entryNodesList xs, hasTypeKey n = true) := by
  induction fuelN with
  | zero =>
    constructor
    · intro v hv
      have := nsize_pos v
      omega
    · intro xs hx cat par c h n hn
      cases xs with
      | nil => simp [entryNodesList] at hn
      | cons a rest => simp only [lsize] at hx; have := nsize_pos a; omega
  | succ m ih =>
    constructor
    · intro v hv cat par c h n hn
      cases v with
      | scalar t ty => simp [entryNodes] at hn
      | sequence xs => simp [entryNodes] at hn
      | mapping es =>
        simp only [derive_dict] at h
        simp only [entryNodes] at hn
        revert h hn
        cases hc : lookupEs es "components" with
        | none =>
          intro h hn
          simp only [List.nil_append, List.mem_singleton, Option.isSome_none,
            Bool.false_eq_true, if_false] at h hn
          cases hname : lookupEs es "name" with
          | some nd =>
            simp only [nameAndTop, hname] at h
            simp only [hname, List.mem_singleton] at hn
            subst hn
            cases htx : textOf nd with
            | error err => simp [htx] at h
            | ok t =>
              simp only [htx] at h
              cases hll : lowest_level_component (.mapping es) par with
              | error err => simp [hll] at h
              | ok card => exact lowest_ok_hasType _ _ _ hll
          | none =>
            simp only [nameAndTop, hname] at h
            simp only [hname] at hn
            cases hcont : lookupEs es "container" with
            | none => simp [hcont] at h
            | some ct =>
              cases ct with
              | scalar t2 ty2 => simp [hcont] at h
              | sequence ys => simp [hcont] at h
              | mapping ces =>
                simp only [hcont] at h hn
                simp only [List.mem_singleton] at hn
                subst hn
                cases hll : lowest_level_component (.mapping (setKeyEs ces "name" (.scalar "container" .tstr))) par with
                | error err => simp [hll] at h
                | ok card => exact lowest_ok_hasType _ _ _ hll
        | some comps =>
          cases comps with
          | scalar t2 ty2 =>
            intro h hn
            cases hname : lookupEs es "name" with
            | some nd =>
              simp only [nameAndTop, hname] at h
              cases htx : textOf nd with
              | error err => simp [htx] at h
              | ok t => simp [htx] at h
            | none => simp [nameAndTop, hname] at h
          | mapping ces =>
            cases ces with
            | cons e crest =>
              intro h hn
              cases hname : lookupEs es "name" with
              | some nd =>
                simp only [nameAndTop, hname] at h
                cases htx : textOf nd with
                | error err => simp [htx] at h
                | ok t => simp [htx] at h
              | none => simp [nameAndTop, hname] at h
            | nil =>
              intro h hn
              simp only [List.nil_append, List.mem_singleton, Option.isSome_some,
                if_true] at h hn
              cases hname : lookupEs es "name" with
              | some nd =>
                simp only [nameAndTop, hname] at h
                simp only [hname, List.mem_singleton] at hn
                subst hn
                cases htx : textOf nd with
                | error err => simp [htx] at h
                | ok t =>
                  simp only [htx] at h
                  cases hll : lowest_level_component (.mapping es) t with
                  | error err => simp [hll] at h
                  | ok card => exact lowest_ok_hasType _ _ _ hll
              | none =>
                simp only [nameAndTop, hname] at h
                simp only [hname] at hn
                cases hcont : lookupEs es "container" with
                | none => simp [hcont] at h
                | some ct =>
                  cases ct with
                  | scalar t2 ty2 => simp [hcont] at h
                  | sequence ys => simp [hcont] at h
                  | mapping cces =>
                    simp only [hcont] at h hn
                    simp only [List.mem_singleton] at hn
                    subst hn
                    cases hll : lowest_level_component (.mapping (setKeyEs cces "name" (.scalar "container" .tstr))) par with
                    | error err => simp [hll] at h
                    | ok card => exact lowest_ok_hasType _ _ _ hll
          | sequence xs =>
            intro h hn
            have hxs : lsize xs ≤ m := by
              have := lookupEs_nsize es "components" _ hc
              simp only [nsize] at this hv
              omega
            simp only [Option.isSome_some, if_true] at h hn
            cases hname : lookupEs es "name" with
            | some nd =>
              simp only [nameAndTop, hname] at h
              simp only [hname] at hn
              cases htx : textOf nd with
              | error err => simp [htx] at h
              | ok t =>
                simp only [htx] at h
                cases hdl : derive_list xs cat t with
                | error err => simp [hdl] at h
                | ok cat2 =>
                  simp only [hdl] at h
                  rcases List.mem_append.mp hn with hm | hm
                  · exact (ih.2 xs hxs cat t cat2 hdl) n hm
                  · simp only [List.mem_singleton] at hm
                    subst hm
                    cases hll : lowest_level_component (.mapping es) t with
                    | error err => simp [hll] at h
                    | ok card => exact lowest_ok_hasType _ _ _ hll
            | none =>
              simp only [nameAndTop, hname] at h
              simp only [hname] at hn
              cases hdl : derive_list xs cat par with
              | error err => simp [hdl] at h
              | ok cat2 =>
                simp only [hdl] at h
                cases hcont : lookupEs es "container" with
                | none => simp [hcont] at h
                | some ct =>
                  cases ct with
                  | scalar t2 ty2 => simp [hcont] at h
                  | sequence ys => simp [hcont] at h
                  | mapping ces =>
                    simp only [hcont] at h hn
                    rcases List.mem_append.mp hn with hm | hm
                    · exact (ih.2 xs hxs cat par cat2 hdl) n hm
                    · simp only [List.mem_singleton] at hm
                      subst hm
                      cases hll : lowest_level_component (.mapping (setKeyEs ces "name" (.scalar "container" .tstr))) par with
                      | error err => simp [hll] at h
                      | ok card => exact lowest_ok_hasType _ _ _ hll
    · intro xs hx cat par c h n hn
      cases xs with
      | nil => simp [entryNodesList] at hn
      | cons a rest =>
        simp only [derive_list] at h
        simp only [entryNodesList] at hn
        cases hda : derive_dict a cat par with
        | error err => rw [hda] at h; simp at h
        | ok cat2 =>
          rw [hda] at h
          rcases List.mem_append.mp hn with hm | hm
          · exact (ih.1 a (by simp only [lsize] at hx; omega) cat par cat2 hda) n hm
          · exact (ih.2 rest (by simp only [lsize] at hx; omega) cat2 par c h) n hm

/-- Number of lines of an emitted block, counted as newline characters
(every emitted entry ends in a newline). -/
def numLines (s : String) : Nat := s.toList.count '\n'

def hasPrefixCL : List Char → List Char → Bool
  | [], _ => true
  | _ :: _, [] => false
  | p :: ps, c :: cs => p == c && hasPrefixCL ps cs

def countSubAux (pat : List Char) : List Char → Nat
  | [] => 0
  | c :: cs => (if hasPrefixCL pat (c :: cs) then 1 else 0) + countSubAux pat cs

/-- Number of (possibly overlapping) occurrences of a non-empty pattern in
a string. -/
def countSub (s pat : String) : Nat := countSubAux pat.toList s.toList

/-- The spec's worked example: child `label_1` of type `Label` with
properties `text: Hi` and `visible: true`. -/
def label1Node : Node :=
  .mapping [("name", .scalar "label_1" .raw), ("type", .scalar "Label" .raw),
            ("properties", .mapping [("text", .scalar "Hi" .raw), ("visible", .scalar "true" .raw)])]

/-- The spec's worked example document: a root whose `container` has type
`ColumnPanel` and one child component `label_1`. -/
def exampleDoc : Node :=
  .mapping [("container", .mapping [("type", .scalar "ColumnPanel" .raw)]),
            ("components", .sequence [label1Node])]

/-- The exact text the generator produces for `exampleDoc` under form name
`Form1`. -/
def exampleOut : String :=
  "from _anvil_designer.componentsUI.anvil import *\n\nLabel1 = dict(\n    text = \x27Hi\x27,\n    visible = True,\n    parent = Container(),\n)\nclass Form1Template(ColumnPanel):\n    label_1 = Label(**Label1)\n\n    # not sure why, but item is not in the official api docs so must add here\n    item = dict()\n\n    def init_components(self, **kwargs):\n        super().__init__()        \n        pass\n"

set_option maxRecDepth 10000 in
theorem exampleEval : yaml2definition exampleDoc "Form1" = .ok exampleOut := by
  simp +decide [yaml2definition, derive_dict, derive_list, exampleDoc, label1Node,
    nameAndTop, textOf, lookupEs, lowest_level_component, add_properties, validate_yaml,
    getKey, setKeyEs, setKeyNode, validate_child, validate_entries, validate_items,
    validate_text, dataOf, dataEntries, dataItems, pyLen, updateAssocP, dict2string,
    entryString, pyStr, pyRepr, odInsert, lookupCat, to_camel_case, pyTitle, pyTitleGo,
    splitUnderscore, charsetDigitsDot, pyFloatAccepts, squote, escapePy, escapePyChar,
    floatRepr, headerString, classTail, itemBlock, initBlock, exampleOut]

/-- Post-order example: leaf `a`. -/
def c2NodeA : Node := .mapping [("name", .scalar "a" .raw), ("type", .scalar "Ta" .raw)]

/-- Post-order example: leaf `d`, the only child of `b`. -/
def c2NodeD : Node := .mapping [("name", .scalar "d" .raw), ("type", .scalar "Td" .raw)]

/-- Post-order example: container `b` with child `d`. -/
def c2NodeB : Node :=
  .mapping [("name", .scalar "b" .raw), ("type", .scalar "Tb" .raw),
            ("components", .sequence [c2NodeD])]

/-- Post-order example: root container with children `[a, b]`. -/
def c2Doc : Node :=
  .mapping [("container", .mapping [("type", .scalar "Panel" .raw)]),
            ("components", .sequence [c2NodeA, c2NodeB])]

set_option maxRecDepth 10000 in
theorem c2Eval :
    (derive_dict c2Doc [] "FormC").map (fun cat => cat.map Prod.fst) =
      .ok ["a", "d", "b", "FormC"] := by
  simp +decide [derive_dict, derive_list, c2Doc, c2NodeA, c2NodeB, c2NodeD,
    nameAndTop, textOf, lookupEs, lowest_level_component, add_properties, validate_yaml,
    getKey, setKeyEs, setKeyNode, validate_child, validate_entries, validate_items,
    validate_text, dataOf, dataEntries, dataItems, pyLen, updateAssocP, dict2string,
    entryString, pyStr, pyRepr, odInsert, to_camel_case, pyTitle, pyTitleGo,
    splitUnderscore, charsetDigitsDot, pyFloatAccepts, squote, escapePy, escapePyChar,
    floatRepr, Except.map, String.join]

/-- A component with an explicitly empty `properties` mapping. -/
def emptyPropsComp : Node :=
  .mapping [("name", .scalar "thing" .raw), ("type", .scalar "Label" .raw),
            ("properties", .mapping [])]

/-- A component whose `properties` contains a nested empty mapping. -/
def nestedEmptyProps : Node :=
  .mapping [("name", .scalar "a" .raw), ("type", .scalar "Label" .raw),
            ("properties", .mapping [("p", .mapping [])])]

/-- A document whose only child component lacks a `type` field. -/
def missTypeDoc : Node :=
  .mapping [("container", .mapping [("type", .scalar "Panel" .raw)]),
            ("components", .sequence [.mapping [("name", .scalar "a" .raw)]])]

/-- C1 counterexample: for the component `emptyPropsComp`, whose
`properties` mapping is present but empty, the attrs map built by
`add_properties` has 0 entries — not the claimed exactly-one synthetic
`parent` entry (the function returns before the `parent` update). -/
theorem add_properties_empty_props_cex :
    (add_properties emptyPropsComp "Form1").map List.length = Except.ok 0 ∧
    (Except.ok 0 : Except Err Nat) ≠ Except.ok 1 := by
  exact ⟨rfl, by simp⟩

/-- C1 (amended): for every component whose `properties` mapping is absent
or empty, the attrs map is empty — the synthetic `parent` entry is only
added when `properties` is non-empty. -/
theorem add_properties_empty_props (es : List (String × Node)) (parent : String)
    (h : lookupEs es "properties" = none ∨ lookupEs es "properties" = some (.mapping [])) :
    add_properties (.mapping es) parent = .ok [] := by
  rcases h with h | h <;> simp [add_properties, h, pyLen]

/-- C1 witness: the amended theorem applied to a concrete empty-properties
component. -/
theorem add_properties_empty_props_witness :
    (lookupEs [("properties", Node.mapping [])] "properties" = none ∨
      lookupEs [("properties", Node.mapping [])] "properties" = some (.mapping [])) ∧
    add_properties (.mapping [("properties", Node.mapping [])]) "Form1" = .ok [] :=
  ⟨Or.inr rfl, add_properties_empty_props _ "Form1" (Or.inr rfl)⟩

/-- C2: catalog insertion order is post-order with siblings left to right.
General part: `derive_dict` equals replaying the flat post-order event
list (descendants first, own entry last) onto the incoming catalog.
Concrete part: for a root container with children `[a, b]` where `b` has
child `d`, the catalog key order is `[a, d, b, FormC]`. -/
theorem derive_dict_postorder :
    (∀ (value : Node) (catalog : Catalog) (parent : String),
        derive_dict value catalog parent =
          (postorder_events value parent).map (odFold catalog)) ∧
    (derive_dict c2Doc [] "FormC").map (fun cat => cat.map Prod.fst) =
      .ok ["a", "d", "b", "FormC"] :=
  ⟨fun v cat par => (derive_refines (nsize v)).1 v (Nat.le_refl _) cat par, c2Eval⟩

/-- C3 counterexample: the text `1.2.3` is drawn entirely from the digits
plus dot, yet the normalizer does not make it numeric — the `Float`
revalidation raises a validation error. -/
theorem dotted_numeric_cex :
    charsetDigitsDot "1.2.3" = true ∧
    validate_text (.scalar "1.2.3" .raw) =
      .error (.validationError "when expecting a float") := by
  exact ⟨by decide, rfl⟩

/-- C3 (amended): scalar retyping: `true`/`false` become boolean, `null`
becomes null, the empty string becomes string; a digit-and-dot-only text
becomes numeric when `float()` accepts it (at most one dot and at least
one digit) and raises a validation error otherwise; all other texts stay
as they are. -/
theorem validate_text_retyping :
    (∀ ty, validate_text (.scalar "true" ty) = .ok (.scalar "true" .tbool)) ∧
    (∀ ty, validate_text (.scalar "false" ty) = .ok (.scalar "false" .tbool)) ∧
    (∀ ty, validate_text (.scalar "null" ty) = .ok (.scalar "null" .tnull)) ∧
    (∀ ty, validate_text (.scalar "" ty) = .ok (.scalar "" .tstr)) ∧
    (∀ t ty, t ≠ "" → charsetDigitsDot t = true → pyFloatAccepts t = true →
      validate_text (.scalar t ty) = .ok (.scalar t .tfloat)) ∧
    (∀ t ty, t ≠ "" → charsetDigitsDot t = true → pyFloatAccepts t = false →
      validate_text (.scalar t ty) = .error (.validationError "when expecting a float")) ∧
    (∀ t ty, t ≠ "true" → t ≠ "false" → t ≠ "null" → charsetDigitsDot t = false →
      validate_text (.scalar t ty) = .ok (.scalar t ty)) := by
  refine ⟨fun ty => rfl, fun ty => rfl, fun ty => rfl, fun ty => rfl, ?_, ?_, ?_⟩
  · intro t ty h0 hcs hacc
    have ht : t ≠ "true" := by rintro rfl; exact absurd hcs (by decide)
    have hf : t ≠ "false" := by rintro rfl; exact absurd hcs (by decide)
    have hnn : t ≠ "null" := by rintro rfl; exact absurd hcs (by decide)
    simp [validate_text, h0, ht, hf, hnn, hcs, hacc]
  · intro t ty h0 hcs hacc
    have ht : t ≠ "true" := by rintro rfl; exact absurd hcs (by decide)
    have hf : t ≠ "false" := by rintro rfl; exact absurd hcs (by decide)
    have hnn : t ≠ "null" := by rintro rfl; exact absurd hcs (by decide)
    simp [validate_text, h0, ht, hf, hnn, hcs, hacc]
  · intro t ty ht hf hnn hcs
    have h0 : t ≠ "" := by rintro rfl; exact absurd hcs (by decide)
    simp [validate_text, h0, ht, hf, hnn, hcs]

/-- C3 witness: the amended retyping theorem applied at `true`, `4.5`
and `Hi`. -/
theorem validate_text_retyping_witness :
    validate_text (.scalar "true" .raw) = .ok (.scalar "true" .tbool) ∧
    validate_text (.scalar "4.5" .raw) = .ok (.scalar "4.5" .tfloat) ∧
    validate_text (.scalar "Hi" .raw) = .ok (.scalar "Hi" .raw) :=
  ⟨validate_text_retyping.1 .raw,
   validate_text_retyping.2.2.2.2.1 "4.5" .raw (by decide) (by decide) (by decide),
   validate_text_retyping.2.2.2.2.2.2 "Hi" .raw (by decide) (by decide) (by decide) (by decide)⟩

set_option maxRecDepth 100000 in
/-- C5 counterexample: on the spec's own example input the generated text
contains no `label_1 = dict(` block — the default block is emitted under
the camel-cased name, not the raw name. -/
theorem example_output_cex :
    yaml2definition exampleDoc "Form1" = .ok exampleOut ∧
    countSub exampleOut "label_1 = dict(" = 0 := by
  exact ⟨exampleEval, by decide⟩

set_option maxRecDepth 100000 in
/-- C5 (amended): for the example input the generated source contains the
default block `Label1 = dict(...)` (camel-cased identifier) with the
quoted `text`, bare `True` and unquoted `parent = Container()`, and the
class line `label_1 = Label(**Label1)` directly inside
`class Form1Template(ColumnPanel):`. -/
theorem example_output_text :
    yaml2definition exampleDoc "Form1" = .ok exampleOut ∧
    countSub exampleOut
      "Label1 = dict(\n    text = \x27Hi\x27,\n    visible = True,\n    parent = Container(),\n)" = 1 ∧
    countSub exampleOut "class Form1Template(ColumnPanel):\n    label_1 = Label(**Label1)" = 1 := by
  exact ⟨exampleEval, by decide, by decide⟩

set_option maxRecDepth 100000 in
/-- C6 counterexample: on the example input the emitted initializer calls
`super().__init__()` with no arguments; no `super().__init__(**...` call
forwarding the keyword arguments occurs anywhere in the output. -/
theorem init_forwarding_cex :
    yaml2definition exampleDoc "Form1" = .ok exampleOut ∧
    countSub exampleOut "super().__init__()" = 1 ∧
    countSub exampleOut "super().__init__(**" = 0 := by
  exact ⟨exampleEval, by decide, by decide⟩

/-- C6 (amended): every successfully generated class ends with the fixed
initializer block whose `init_components(self, **kwargs)` ignores its
keyword arguments and invokes the superclass initializer with no
arguments. -/
theorem append_tail_split (x : String) : ∃ p, x ++ classTail = p ++ initBlock :=
  ⟨x ++ itemBlock, by simp only [classTail, String.append_assoc]⟩

theorem init_block_fixed (parsed : Node) (form_name s : String)
    (h : yaml2definition parsed form_name = .ok s) :
    ∃ p, s = p ++ initBlock := by
  cases hd : derive_dict parsed [] form_name with
  | error err =>
    simp only [yaml2definition, hd] at h
    exact Except.noConfusion h
  | ok catalog =>
    cases hc : lookupCat catalog form_name with
    | none =>
      simp only [yaml2definition, hd, hc] at h
      exact Except.noConfusion h
    | some rootCard =>
      simp only [yaml2definition, hd, hc, Except.ok.injEq] at h
      subst h
      exact append_tail_split _

/-- C6 witness: the fixed-initializer theorem applied to the example
generation run. -/
theorem init_block_fixed_witness :
    yaml2definition exampleDoc "Form1" = .ok exampleOut ∧
    ∃ p, exampleOut = p ++ initBlock :=
  ⟨exampleEval, init_block_fixed exampleDoc "Form1" exampleOut exampleEval⟩

/-- C7: if any entry-yielding component node lacks a `type` key, generation
fails with an error and produces no source text. -/
theorem missing_type_aborts (parsed : Node) (form_name : String)
    (h : ∃ n ∈ entryNodes parsed, hasTypeKey n = false) :
    ∃ e, yaml2definition parsed form_name = .error e := by
  cases hd : derive_dict parsed [] form_name with
  | error err =>
    refine ⟨err, ?_⟩
    simp [yaml2definition, hd]
  | ok c =>
    obtain ⟨n, hm, hty⟩ := h
    have htrue := (derive_ok_typed (nsize parsed)).1 parsed (Nat.le_refl _) [] form_name c hd n hm
    rw [htrue] at hty
    exact Bool.noConfusion hty

/-- Evaluation helper: the entry nodes of `missTypeDoc`. -/
theorem missTypeEval :
    entryNodes missTypeDoc =
      [.mapping [("name", .scalar "a" .raw)],
       .mapping [("type", .scalar "Panel" .raw), ("name", .scalar "container" .tstr)]] := by
  simp [entryNodes, entryNodesList, missTypeDoc, lookupEs, setKeyEs]

/-- C7 witness: the abort theorem applied to a document whose only child
component lacks `type`; there the raised error is exactly the
missing-type error naming the offending component. -/
theorem missing_type_aborts_witness :
    (∃ n ∈ entryNodes missTypeDoc, hasTypeKey n = false) ∧
    yaml2definition missTypeDoc "F" = .error (.missingType "a") ∧
    (∃ e, yaml2definition missTypeDoc "F" = .error e) := by
  have hx : ∃ n ∈ entryNodes missTypeDoc, hasTypeKey n = false := by
    rw [missTypeEval]
    exact ⟨.mapping [("name", .scalar "a" .raw)], List.mem_cons_self _ _, rfl⟩
  refine ⟨hx, ?_, missing_type_aborts missTypeDoc "F" hx⟩
  simp [yaml2definition, derive_dict, derive_list, missTypeDoc, nameAndTop, textOf,
    lookupEs, lowest_level_component, add_properties, setKeyEs]

/-- C8: evaluation of the empty-mapping branch at a failing input — a
component whose `properties` holds a nested empty mapping makes
normalization raise a validation error (the enclosing node, which is
never empty, is revalidated against `EmptyDict`) instead of marking the
empty mapping itself. -/
theorem nested_empty_mapping_raises :
    add_properties nestedEmptyProps "Form1" =
      .error (.validationError "when expecting an empty mapping") := rfl

/-- C9: generation is a deterministic function of the parsed document and
form name — equal inputs give byte-identical output. -/
theorem yaml2definition_deterministic (p1 p2 : Node) (n1 n2 : String)
    (h1 : p1 = p2) (h2 : n1 = n2) : yaml2definition p1 n1 = yaml2definition p2 n2 := by
  subst h1
  subst h2
  rfl

/-- C9 witness: determinism applied to the example run. -/
theorem yaml2definition_deterministic_witness :
    exampleDoc = exampleDoc ∧
    yaml2definition exampleDoc "Form1" = yaml2definition exampleDoc "Form1" :=
  ⟨rfl, yaml2definition_deterministic exampleDoc exampleDoc "Form1" "Form1" rfl rfl⟩

/-- Mapping field access used to state the normalizer frame property. -/
def nodeGet (n : Node) (k : String) : Option Node :=
  match n with
  | .mapping es => lookupEs es k
  | _ => none

theorem lookupEs_setKeyEs_ne (es : List (String × Node)) (k k' : String) (v : Node)
    (h : k' ≠ k) : lookupEs (setKeyEs es k v) k' = lookupEs es k' := by
  have hkk : k ≠ k' := fun hh => h hh.symm
  induction es with
  | nil => simp [setKeyEs, lookupEs, hkk]
  | cons e rest ih =>
    obtain ⟨ek, en⟩ := e
    by_cases hk : ek = k
    · subst hk
      simp [setKeyEs, lookupEs, hkk]
    · by_cases hk2 : ek = k'
      · subst hk2
        simp [setKeyEs, lookupEs, hk]
      · simp [setKeyEs, lookupEs, hk, hk2, ih]

/-- C10: normalizing the `properties` subtree of a component leaves every
other key of the component untouched — in particular the `name` and
`type` scalars keep their raw text. -/
theorem normalizer_props_frame (v t : Node)
    (h : validate_yaml v (.str "properties") = .ok t) :
    ∀ k, k ≠ "properties" → nodeGet t k = nodeGet v k := by
  intro k hk
  cases v with
  | scalar t2 ty => simp [validate_yaml, getKey] at h
  | sequence xs => simp [validate_yaml, getKey] at h
  | mapping es =>
    simp only [validate_yaml, getKey] at h
    cases hl : lookupEs es "properties" with
    | none =>
      rw [hl] at h
      exact Except.noConfusion h
    | some child =>
      rw [hl] at h
      have h2 : (match validate_child child with
          | Except.error err => (Except.error err : Except Err Node)
          | Except.ok child2 =>
            Except.ok (setKeyNode (Node.mapping es) (YKey.str "properties") child2)) =
          Except.ok t := h
      cases hv : validate_child child with
      | error err =>
        rw [hv] at h2
        exact Except.noConfusion h2
      | ok child2 =>
        rw [hv] at h2
        injection h2 with h2
        subst h2
        simp [setKeyNode, nodeGet, lookupEs_setKeyEs_ne es "properties" k child2 hk]

/-- The example child component after its `properties` subtree has been
normalized (`visible` became boolean, everything else unchanged). -/
def label1Normalized : Node :=
  .mapping [("name", .scalar "label_1" .raw), ("type", .scalar "Label" .raw),
            ("properties", .mapping [("text", .scalar "Hi" .raw), ("visible", .scalar "true" .tbool)])]

/-- C10 witness: the frame theorem applied to the example component. -/
theorem normalizer_props_frame_witness :
    validate_yaml label1Node (.str "properties") = .ok label1Normalized ∧
    ∀ k, k ≠ "properties" → nodeGet label1Normalized k = nodeGet label1Node k :=
  ⟨rfl, normalizer_props_frame label1Node label1Normalized rfl⟩

theorem numLines_append (a b : String) : numLines (a ++ b) = numLines a + numLines b := by
  simp [numLines, String.toList, String.data_append, List.count_append]

theorem entryString_numLines (k : String) (v : PValue)
    (hk : numLines k = 0) (hv : numLines (pyStr v) = 0) :
    numLines (entryString k v) = 1 := by
  have c1 : numLines "    " = 0 := by decide
  have c2 : numLines " = " = 0 := by decide
  have c3 : numLines ",\n" = 1 := by decide
  have hq : numLines squote = 0 := by decide
  have c4 : numLines "    parent = " = 0 := by decide
  cases v with
  | pstr s =>
    have hs : numLines s = 0 := hv
    by_cases hp : k = "parent"
    · simp [entryString, hp, numLines_append, hk, hs, c1, c2, c3, c4]
    · simp [entryString, hp, numLines_append, hk, hs, hq, c1, c2, c3]
  | pbool b => simp [entryString, numLines_append, hk, hv, c1, c2, c3]
  | pnone => simp [entryString, numLines_append, hk, hv, c1, c2, c3]
  | pfloat t => simp [entryString, numLines_append, hk, hv, c1, c2, c3]
  | pdict es => simp [entryString, numLines_append, hk, hv, c1, c2, c3]
  | plist xs => simp [entryString, numLines_append, hk, hv, c1, c2, c3]

theorem foldl_entry_numLines (l : List (String × PValue)) (init : String)
    (h : ∀ kv ∈ l, numLines (entryString kv.1 kv.2) = 1) :
    numLines (l.foldl (fun acc kv => acc ++ entryString kv.1 kv.2) init) =
      numLines init + l.length := by
  induction l generalizing init with
  | nil => simp
  | cons kv rest ih =>
    simp only [List.foldl_cons, List.length_cons]
    rw [ih _ (fun x hx => h x (List.mem_cons_of_mem _ hx)), numLines_append,
      h kv (List.mem_cons_self _ _)]
    omega

theorem dict2string_numLines (dn : String) (attrs : List (String × PValue))
    (h : ∀ kv ∈ attrs, numLines (entryString kv.1 kv.2) = 1) :
    numLines (dict2string dn attrs) = attrs.length := by
  have h0 : numLines "" = 0 := by decide
  simp only [dict2string]
  rw [foldl_entry_numLines attrs "" h, h0]
  omega

theorem validate_entries_keys (ps qs : List (String × Node))
    (h : validate_entries ps = .ok qs) : qs.map Prod.fst = ps.map Prod.fst := by
  induction ps generalizing qs with
  | nil =>
    simp only [validate_entries, Except.ok.injEq] at h
    subst h
    rfl
  | cons p rest ih =>
    obtain ⟨k, n⟩ := p
    simp only [validate_entries] at h
    cases hv : validate_child n with
    | error err =>
      simp only [hv] at h
      exact Except.noConfusion h
    | ok n2 =>
      simp only [hv] at h
      cases hr : validate_entries rest with
      | error err =>
        simp only [hr] at h
        exact Except.noConfusion h
      | ok rest2 =>
        simp only [hr, Except.ok.injEq] at h
        subst h
        simp [ih rest2 hr]

theorem dataEntries_keys (qs : List (String × Node)) :
    (dataEntries qs).map Prod.fst = qs.map Prod.fst := by
  induction qs with
  | nil => rfl
  | cons q rest ih =>
    obtain ⟨k, n⟩ := q
    simp [dataEntries, ih]

theorem updateAssocP_fresh (l : List (String × PValue)) (key : String) (v : PValue)
    (h : key ∉ l.map Prod.fst) : updateAssocP l key v = l ++ [(key, v)] := by
  induction l with
  | nil => rfl
  | cons p rest ih =>
    obtain ⟨k, w⟩ := p
    have hk : ¬ k = key := by
      rintro rfl
      exact h (by simp)
    simp [updateAssocP, hk, ih (fun hm => h (by simp [hm]))]

theorem lookupEs_setKeyEs_eq (es : List (String × Node)) (k : String) (v : Node) :
    lookupEs (setKeyEs es k v) k = some v := by
  induction es with
  | nil => simp [setKeyEs, lookupEs]
  | cons e rest ih =>
    obtain ⟨ek, en⟩ := e
    by_cases hk : ek = k
    · subst hk
      simp [setKeyEs, lookupEs]
    · simp [setKeyEs, lookupEs, hk, ih]

/-- C4 (amended): for a component whose `properties` mapping is non-empty
with N entries, none of them keyed `parent`, a successful attrs build has
exactly N+1 entries; when no key or rendered value contains a newline the
emitted property block has exactly N+1 lines; a non-`parent` string value
is rendered wrapped in single quotes and every non-string value is
rendered bare by `str()`. -/
theorem property_block_shape (es ps : List (String × Node)) (parent dn : String)
    (attrs : List (String × PValue))
    (hprops : lookupEs es "properties" = some (.mapping ps))
    (hne : ps ≠ [])
    (hfresh : "parent" ∉ ps.map Prod.fst)
    (hok : add_properties (.mapping es) parent = .ok attrs)
    (hnl : ∀ kv ∈ attrs, numLines kv.1 = 0 ∧ numLines (pyStr kv.2) = 0) :
    attrs.length = ps.length + 1 ∧
    numLines (dict2string dn attrs) = ps.length + 1 ∧
    (∀ k s, (k, PValue.pstr s) ∈ attrs → k ≠ "parent" →
      entryString k (.pstr s) = "    " ++ k ++ " = " ++ (squote ++ s ++ squote) ++ ",\n") ∧
    (∀ k v, (k, v) ∈ attrs → (∀ s, v ≠ .pstr s) →
      entryString k v = "    " ++ k ++ " = " ++ pyStr v ++ ",\n") := by
  have hne' : ¬ (pyLen (Node.mapping ps) = 0) := by
    simp only [pyLen]
    exact fun hh => hne (List.length_eq_zero.mp hh)
  simp only [add_properties, hprops, if_neg hne', validate_yaml, getKey, hprops] at hok
  cases ps with
  | nil => exact absurd rfl hne
  | cons p prest =>
    simp only [validate_child] at hok
    cases hve : validate_entries (p :: prest) with
    | error err =>
      simp only [hve] at hok
      exact Except.noConfusion hok
    | ok qs =>
      simp only [hve, setKeyNode, dataOf, lookupEs_setKeyEs_eq, Except.ok.injEq] at hok
      have hkeys : (dataEntries qs).map Prod.fst = (p :: prest).map Prod.fst := by
        rw [dataEntries_keys, validate_entries_keys _ _ hve]
      have hfresh2 : "parent" ∉ (dataEntries qs).map Prod.fst := by
        rw [hkeys]
        exact hfresh
      rw [updateAssocP_fresh _ _ _ hfresh2] at hok
      subst hok
      have hlen : (dataEntries qs).length = (p :: prest).length := by
        have := congrArg List.length hkeys
        simpa using this
      refine ⟨?_, ?_, ?_, ?_⟩
      · simp [hlen]
      · rw [dict2string_numLines]
        · simp [hlen]
        · intro kv hm
          exact entryString_numLines kv.1 kv.2 (hnl kv hm).1 (hnl kv hm).2
      · intro k s hm hp
        simp [entryString, hp]
      · intro k v hm hns
        cases v with
        | pstr s => exact absurd rfl (hns s)
        | pbool b => rfl
        | pnone => rfl
        | pfloat t => rfl
        | pdict des => rfl
        | plist xs => rfl

/-- C4 counterexample: a component whose `properties` mapping is empty
(N = 0) yields an emitted property block with 0 lines, not the claimed
N + 1 = 1 lines (no synthetic `parent` line is emitted). -/
theorem property_block_lines_cex :
    (lowest_level_component emptyPropsComp "Form1").map (fun c => numLines c.as_string) =
      Except.ok 0 ∧
    (Except.ok 0 : Except Err Nat) ≠ Except.ok 1 := by
  exact ⟨rfl, by simp⟩

/-- The attrs map the generator builds for the example component. -/
def label1Attrs : List (String × PValue) :=
  [("text", .pstr "Hi"), ("visible", .pbool true), ("parent", .pstr "Container()")]

/-- C4 witness: the block-shape theorem applied to the example component
(2 user properties give a 3-entry attrs map and a 3-line block). -/
theorem property_block_shape_witness :
    add_properties label1Node "Form1" = .ok label1Attrs ∧
    label1Attrs.length = 2 + 1 ∧
    numLines (dict2string "label_1" label1Attrs) = 2 + 1 := by
  have main := property_block_shape
    [("name", .scalar "label_1" .raw), ("type", .scalar "Label" .raw),
     ("properties", .mapping [("text", .scalar "Hi" .raw), ("visible", .scalar "true" .raw)])]
    [("text", .scalar "Hi" .raw), ("visible", .scalar "true" .raw)]
    "Form1" "label_1" label1Attrs rfl (List.cons_ne_nil _ _) (by decide) rfl (by decide)
  exact ⟨rfl, main.1, main.2.1⟩

end AnvilGen
